import Mathlib

/-!
Shallow embedding of `mch_config.py`: the Intel MCH PCI-configuration-space
decoder.  Pure functions are translated directly; the port-I/O capture loop is
modelled by explicit state passing over a trace of port events; exceptions are
modelled with `Except`; Python byte strings are lists of naturals below 256.
-/

set_option maxRecDepth 8000

namespace MchConfig

/-- Containment test on character lists, mirroring Python's substring operator
`pat in s`. -/
def hasSubstring (pat : List Char) : List Char → Bool
  | [] => pat.isEmpty
  | c :: rest => pat.isPrefixOf (c :: rest) || hasSubstring pat rest

/-- Test from `unpack_structure`: `"reserved" in name`. -/
def reservedName (name : String) : Bool :=
  hasSubstring "reserved".toList name.toList

/-- The struct format codes appearing in the layout table:
`<B`, `<H`, `<I`, `<Q` (unsigned little-endian of 1, 2, 4, 8 bytes). -/
inductive DataType where
  | B
  | H
  | I
  | Q
  deriving DecidableEq

/-- Byte width consumed by `struct.unpack` / `struct.pack` for a format code. -/
def fmtWidth : DataType → Nat
  | .B => 1
  | .H => 2
  | .I => 4
  | .Q => 8

/-- One row of the layout table: `(name, data_type, size)`. -/
abbrev FieldDef := String × DataType × Nat

/-- Constants from the source. -/
def DWORD_SIZE : Nat := 4

def IOPERM_LONG : Nat := 4

def IOPERM_ENABLE : Nat := 1

/-- Intel memory controllers are located at bus 0, device 0 and function 0. -/
def MCH_BDF : Nat × Nat × Nat := (0, 0, 0)

def VENDOR_IDS : List Nat := [0x8086]

/-- Device allowlist; the last two literals are octal in the Python 2 source. -/
def DEVICE_IDS : List Nat := [0x0100, 0x0104, 0o150, 0o154]

def PCI_CONFIG_ADDRESS : Nat := 0xcf8

def PCI_CONFIG_DATA : Nat := 0xcfc

def PCI_CONFIG_ENABLE : Nat := 0x80000000

def PCI_CONFIG_SIZE : Nat := 0xff

/-- The layout table `PCIMCHConfig` from the source, row for row. -/
def PCIMCHConfig : List FieldDef := [
  ("vendor_id", .H, 2),
  ("device_id", .H, 2),
  ("command", .H, 2),
  ("status", .H, 2),
  ("revision_id", .B, 1),
  ("reserved_class_code", .B, 0x3),
  ("reserved_0", .H, 2),
  ("header_type", .B, 1),
  ("reserved_1", .B, 0x1d),
  ("svid", .H, 2),
  ("sid", .H, 2),
  ("reserved_2", .B, 0x10),
  ("pxpepbar", .Q, 8),
  ("mchbar", .Q, 8),
  ("ggc", .H, 2),
  ("reserved_3", .B, 0x2),
  ("device_enable", .I, 4),
  ("pavpc", .I, 4),
  ("dma_protected_range", .I, 4),
  ("pxiexbar", .Q, 8),
  ("dmibar", .Q, 8),
  ("reserved_4", .B, 0x10),
  ("pam0", .B, 1),
  ("pam1", .B, 1),
  ("pam2", .B, 1),
  ("pam3", .B, 1),
  ("pam4", .B, 1),
  ("pam5", .B, 1),
  ("pam6", .B, 1),
  ("lac", .B, 1),
  ("reserved_5", .B, 8),
  ("remap_base", .Q, 8),
  ("remap_limit", .Q, 8),
  ("tom", .Q, 8),
  ("touud", .Q, 8),
  ("bdsm", .I, 4),
  ("bgsm", .I, 4),
  ("tsegmb", .I, 4),
  ("tolud", .I, 4),
  ("reserved_6", .B, 0x2c)
]

/-- Unsigned little-endian value of a byte list, as `struct.unpack` computes it
for the formats `<B`, `<H`, `<I`, `<Q`. -/
def unpackLE : List Nat → Nat
  | [] => 0
  | b :: rest => b + 256 * unpackLE rest

/-- Little-endian encoding of `v` into `w` bytes, as `struct.pack` computes it
for in-range values. -/
def packLE : Nat → Nat → List Nat
  | 0, _ => []
  | w + 1, v => v % 256 :: packLE w (v / 256)

/-- The two exception kinds `unpack_structure` can propagate: the explicit
bounds `Exception` raised by the function, and `struct.error` raised by
`struct.unpack` when the slice length differs from the format width. -/
inductive UnpackError where
  | outOfBounds (requested actual : Nat)
  | structError
  deriving DecidableEq

/-- Model of `struct.unpack(data_type, bytes)[0]` for the unsigned
little-endian formats: fails unless the buffer length equals the format
width. -/
def structUnpack (data_type : DataType) (bytes : List Nat) : Except UnpackError Nat :=
  if bytes.length = fmtWidth data_type then .ok (unpackLE bytes)
  else .error .structError

/-- Python dict assignment `d[k] = v`: replace in place if the key exists,
otherwise append. -/
def dictInsert (m : List (String × Nat)) (k : String) (v : Nat) : List (String × Nat) :=
  if m.any (fun p => p.1 == k) then m.map (fun p => if p.1 == k then (k, v) else p)
  else m ++ [(k, v)]

/-- Python dict read `d[k]`: value of the first (unique) entry with key `k`. -/
def dictGet (m : List (String × Nat)) (k : String) : Option Nat :=
  (m.find? (fun p => p.1 == k)).map (fun p => p.2)

/-- Loop body of `unpack_structure`: walk the field definitions keeping the
running cursor `pos` and the accumulated dict `res`. -/
def unpack_structure_loop (data : List Nat) :
    List FieldDef → Nat → List (String × Nat) → Except UnpackError (List (String × Nat))
  | [], _, res => .ok res
  | (name, data_type, size) :: rest, pos, res =>
    if pos + size > data.length then
      .error (.outOfBounds (pos + size) data.length)
    else if reservedName name then
      unpack_structure_loop data rest (pos + size) res
    else
      match structUnpack data_type ((data.drop pos).take size) with
      | .error e => .error e
      | .ok value => unpack_structure_loop data rest (pos + size) (dictInsert res name value)

/-- The function `unpack_structure(definition, data)` from the source. -/
def unpack_structure (definition : List FieldDef) (data : List Nat) :
    Except UnpackError (List (String × Nat)) :=
  unpack_structure_loop data definition 0 []

/-- Sum of the declared field sizes of a layout. -/
def totalSize (definition : List FieldDef) : Nat :=
  (definition.map (fun f => f.2.2)).sum

/-- A layout is well formed (spec 4.2 input constraint) when every
non-reserved field's struct format width equals its declared size, so the
per-field `struct.unpack` cannot fail. -/
def fieldsWellFormed (definition : List FieldDef) : Bool :=
  definition.all (fun f => reservedName f.1 || fmtWidth f.2.1 == f.2.2)

/-- Names of the non-reserved fields, in table order. -/
def nonReservedNames (definition : List FieldDef) : List String :=
  (definition.filter (fun f => !reservedName f.1)).map (fun f => f.1)

/-- Closed form of the decoded map: one entry per non-reserved field carrying
the little-endian value of its slice. -/
def buildMap (data : List Nat) : List FieldDef → Nat → List (String × Nat)
  | [], _ => []
  | (name, _, size) :: rest, pos =>
    if reservedName name then buildMap data rest (pos + size)
    else (name, unpackLE ((data.drop pos).take size)) :: buildMap data rest (pos + size)

/-- The function `encode_config_address(bus, device, function, register)` from the source. -/
def encode_config_address (bus device function register : Nat) : Nat :=
  bus <<< 16 ||| device <<< 11 ||| function <<< 8 ||| register

/-- Port I/O events, in the order the program issues them. -/
inductive IOEvent where
  | outlEv (value port : Nat)
  | inlEv (port : Nat)
  deriving DecidableEq

/-- State of the port-I/O collaborator: the address last written to the
address port, and the trace of all port accesses so far. -/
structure PortState where
  latched : Nat
  trace : List IOEvent
  deriving DecidableEq

/-- Model of `portio.outl(value, port)`: record the write; the address port latches the
written dword. -/
def outl (value port : Nat) (s : PortState) : PortState :=
  { latched := if port = PCI_CONFIG_ADDRESS then value else s.latched,
    trace := s.trace ++ [.outlEv value port] }

/-- Model of `portio.inl(port)`: record the read; the hardware oracle `dev` gives the
32-bit dword selected by the latched address. -/
def inl (dev : Nat → Nat) (port : Nat) (s : PortState) : Nat × PortState :=
  (dev s.latched, { s with trace := s.trace ++ [.inlEv port] })

/-- The function `pci_config_seek` from the source. -/
def pci_config_seek (bus device function register : Nat) (s : PortState) : PortState :=
  outl (PCI_CONFIG_ENABLE ||| encode_config_address bus device function register)
    PCI_CONFIG_ADDRESS s

/-- Python `range(start, stop, step)` for a positive step. -/
def pyRange (start stop step : Nat) : List Nat :=
  (List.range ((stop - start + step - 1) / step)).map (fun i => start + step * i)

/-- Loop body of `read_pci_config`: seek then read for each offset, appending
the packed dword to the buffer list. -/
def read_pci_config_loop (bus device function : Nat) (dev : Nat → Nat) :
    List Nat → List (List Nat) → PortState → List (List Nat) × PortState
  | [], buf, s => (buf, s)
  | offset :: rest, buf, s =>
    let s1 := pci_config_seek bus device function offset s
    let r := inl dev PCI_CONFIG_DATA s1
    read_pci_config_loop bus device function dev rest (buf ++ [packLE 4 r.1]) r.2

/-- The function `read_pci_config` from the source: 64 seek/read iterations over
`range(0, 0xff, 0x4)`, joined into one byte buffer.  `portio.inl` returns an
unsigned 32-bit value, for which `pack("<I", value)` is exactly `packLE 4`. -/
def read_pci_config (bus device function : Nat) (dev : Nat → Nat) (s : PortState) :
    List Nat × PortState :=
  let offsets := pyRange 0 0xff 0x4
  let r := read_pci_config_loop bus device function dev offsets [] s
  (r.1.flatten, r.2)

/-- Hex digit character, lowercase, as Python's `{:x}` format produces. -/
def hexChar (d : Nat) : Char :=
  if d < 10 then Char.ofNat (48 + d) else Char.ofNat (87 + d)

/-- Hex digits of `v` (most significant first); the first argument is fuel
bounding the recursion depth. -/
def hexDigitsAux : Nat → Nat → List Char
  | 0, _ => []
  | fuel + 1, v => if v = 0 then [] else hexDigitsAux fuel (v / 16) ++ [hexChar (v % 16)]

/-- Python's zero-padded hex format `{:0<width>x}`. -/
def pyFormatHex (width v : Nat) : String :=
  let ds := if v = 0 then ['0'] else hexDigitsAux v v
  ⟨List.replicate (width - ds.length) '0' ++ ds⟩

/-- The warning line printed when the vendor/device identity is unknown. -/
def identity_warning (vendor_id device_id : Nat) : String :=
  "MCH vendor id 0x" ++ pyFormatHex 4 vendor_id ++ " or device id 0x" ++
    pyFormatHex 4 device_id ++ " unknown"

/-- The fixed report block printed by `print_mch_config`; `none` models the
`KeyError` that would follow from a field missing in the decoded map. -/
def mch_report_text (mch_config : List (String × Nat)) : Option String :=
  match dictGet mch_config "tsegmb", dictGet mch_config "bdsm", dictGet mch_config "bgsm",
      dictGet mch_config "tolud", dictGet mch_config "remap_base",
      dictGet mch_config "remap_limit", dictGet mch_config "touud",
      dictGet mch_config "tom" with
  | some tsegmb, some bdsm, some bgsm, some tolud, some remap_base, some remap_limit,
      some touud, some tom =>
    some ("MCH configuration:\n" ++
      "Top Segment Memory Base:   0x" ++ pyFormatHex 16 tsegmb ++ "\n" ++
      "Base of GFX stolen Memory: 0x" ++ pyFormatHex 16 bdsm ++ "\n" ++
      "Base of GTT stolen Memory: 0x" ++ pyFormatHex 16 bgsm ++ "\n" ++
      "Top of Low Usable DRAM:    0x" ++ pyFormatHex 16 tolud ++ "\n" ++
      "Remap Base:                0x" ++ pyFormatHex 16 remap_base ++ "\n" ++
      "Remap Limit:               0x" ++ pyFormatHex 16 remap_limit ++ "\n" ++
      "Top of Upper Usable DRAM:  0x" ++ pyFormatHex 16 touud ++ "\n" ++
      "Top of Memory:             0x" ++ pyFormatHex 16 tom ++ "\n" ++
      "(least significant bit is lock flag)")
  | _, _, _, _, _, _, _, _ => none

/-- The lines printed by `print_mch_config` after decoding: the identity
warning when vendor or device id is not allowlisted, then the report block. -/
def print_config_lines (mch_config : List (String × Nat)) : Option (List String) :=
  match dictGet mch_config "vendor_id", dictGet mch_config "device_id" with
  | some vendor_id, some device_id =>
    let warn := if vendor_id ∉ VENDOR_IDS ∨ device_id ∉ DEVICE_IDS then
      [identity_warning vendor_id device_id] else []
    match mch_report_text mch_config with
    | some report => some (warn ++ [report])
    | none => none
  | _, _ => none

/-- The function `print_mch_config` from the source: capture, decode, then print. -/
def print_mch_config (dev : Nat → Nat) (s : PortState) :
    Except UnpackError (Option (List String)) :=
  let raw_config := (read_pci_config MCH_BDF.1 MCH_BDF.2.1 MCH_BDF.2.2 dev s).1
  match unpack_structure PCIMCHConfig raw_config with
  | .error e => .error e
  | .ok mch_config => .ok (print_config_lines mch_config)

/-- Outcome of the `__main__` block. -/
inductive MainOutcome where
  | privFailure (message : String)
  | captureRun (output : Except UnpackError (Option (List String)))

/-- The `__main__` block: two `ioperm` calls whose results are assigned to the
same variable in sequence, then a single check of that variable.  `errData`
and `errAddr` are the results of `ioperm(PCI_CONFIG_DATA, ...)` and
`ioperm(PCI_CONFIG_ADDRESS, ...)`; `strerror` is the libc error formatter. -/
def main_flow (strerror : Nat → String) (errData errAddr : Nat) (dev : Nat → Nat)
    (s : PortState) : MainOutcome :=
  let error := errData
  let error := errAddr
  if error ≠ 0 then
    .privFailure ("Failed to acquire I/O priviledges: " ++ strerror error)
  else
    .captureRun (print_mch_config dev s)

/-! ### Shared lemmas about the decoder -/

theorem totalSize_nil : totalSize [] = 0 := rfl

theorem totalSize_cons (f : FieldDef) (rest : List FieldDef) :
    totalSize (f :: rest) = f.2.2 + totalSize rest := by
  simp [totalSize]

theorem totalSize_cons' (name : String) (data_type : DataType) (size : Nat)
    (rest : List FieldDef) :
    totalSize ((name, data_type, size) :: rest) = size + totalSize rest := by
  simp [totalSize]

theorem slice_length (data : List Nat) (pos size : Nat) (h : pos + size ≤ data.length) :
    ((data.drop pos).take size).length = size := by
  simp only [List.length_take, List.length_drop]
  omega

theorem nonReservedNames_cons_reserved (f : FieldDef) (rest : List FieldDef)
    (h : reservedName f.1 = true) :
    nonReservedNames (f :: rest) = nonReservedNames rest := by
  simp [nonReservedNames, List.filter_cons, h]

theorem nonReservedNames_cons_plain (f : FieldDef) (rest : List FieldDef)
    (h : reservedName f.1 = false) :
    nonReservedNames (f :: rest) = f.1 :: nonReservedNames rest := by
  simp [nonReservedNames, List.filter_cons, h]

theorem dictInsert_fresh (m : List (String × Nat)) (k : String) (v : Nat)
    (h : ∀ p ∈ m, p.1 ≠ k) : dictInsert m k v = m ++ [(k, v)] := by
  unfold dictInsert
  rw [if_neg]
  simp only [List.any_eq_true, beq_iff_eq, not_exists, not_and]
  intro p hp
  exact h p hp

theorem keys_dictInsert (m : List (String × Nat)) (k : String) (v : Nat) (a : String) :
    a ∈ (dictInsert m k v).map Prod.fst ↔ a ∈ m.map Prod.fst ∨ a = k := by
  unfold dictInsert
  by_cases h : m.any (fun p => p.1 == k)
  · rw [if_pos h]
    simp only [List.any_eq_true, beq_iff_eq] at h
    obtain ⟨q, hq, hqk⟩ := h
    simp only [List.map_map, List.mem_map, Function.comp]
    constructor
    · rintro ⟨p, hp, hpa⟩
      by_cases hpk : p.1 = k
      · rw [if_pos (by simpa using hpk)] at hpa
        exact Or.inr hpa.symm
      · rw [if_neg (by simpa using hpk)] at hpa
        exact Or.inl ⟨p, hp, hpa⟩
    · rintro (⟨p, hp, hpa⟩ | rfl)
      · by_cases hpk : p.1 = k
        · exact ⟨q, hq, by rw [if_pos (by simpa using hqk)]; rw [← hpa, hpk]⟩
        · exact ⟨p, hp, by rw [if_neg (by simpa using hpk)]; exact hpa⟩
      · exact ⟨q, hq, by rw [if_pos (by simpa using hqk)]⟩
  · rw [if_neg h]
    simp

theorem keys_buildMap (data : List Nat) (definition : List FieldDef) :
    ∀ pos, (buildMap data definition pos).map Prod.fst = nonReservedNames definition := by
  induction definition with
  | nil => intro pos; simp [buildMap, nonReservedNames]
  | cons f rest ih =>
    obtain ⟨name, data_type, size⟩ := f
    intro pos
    by_cases hres : reservedName name
    · rw [buildMap, if_pos hres, nonReservedNames_cons_reserved _ _ hres, ih]
    · rw [buildMap, if_neg hres,
        nonReservedNames_cons_plain _ _ (by simpa using hres)]
      simp [ih]

theorem loop_ok_eq (data : List Nat) (definition : List FieldDef) :
    ∀ (pos : Nat) (res : List (String × Nat)),
      fieldsWellFormed definition = true →
      pos + totalSize definition ≤ data.length →
      (nonReservedNames definition).Nodup →
      (∀ a ∈ res.map Prod.fst, a ∉ nonReservedNames definition) →
      unpack_structure_loop data definition pos res =
        .ok (res ++ buildMap data definition pos) := by
  induction definition with
  | nil => intro pos res _ _ _ _; simp [unpack_structure_loop, buildMap]
  | cons f rest ih =>
    obtain ⟨name, data_type, size⟩ := f
    intro pos res hWF hlen hnd hfresh
    rw [totalSize_cons'] at hlen
    simp only [fieldsWellFormed, List.all_cons, Bool.and_eq_true, Bool.or_eq_true] at hWF
    have hb : ¬ (pos + size > data.length) := by simp only [not_lt]; omega
    rw [unpack_structure_loop, if_neg hb]
    by_cases hres : reservedName name
    · rw [if_pos hres, buildMap, if_pos hres]
      rw [nonReservedNames_cons_reserved _ _ hres] at hnd hfresh
      exact ih (pos + size) res (by simpa [fieldsWellFormed] using hWF.2) (by omega) hnd hfresh
    · rw [if_neg hres, buildMap, if_neg hres]
      rw [nonReservedNames_cons_plain _ _ (by simpa using hres)] at hnd hfresh
      have hw : fmtWidth data_type = size := by
        rcases hWF.1 with h | h
        · exact absurd h hres
        · exact by simpa using h
      have hsl : ((data.drop pos).take size).length = size :=
        slice_length data pos size (by omega)
      have hsu : structUnpack data_type ((data.drop pos).take size) =
          .ok (unpackLE ((data.drop pos).take size)) := by
        rw [structUnpack, if_pos (by rw [hsl, hw])]
      simp only [hsu]
      have hins : dictInsert res name (unpackLE ((data.drop pos).take size)) =
          res ++ [(name, unpackLE ((data.drop pos).take size))] := by
        apply dictInsert_fresh
        intro p hp hpk
        exact hfresh p.1 (List.mem_map_of_mem Prod.fst hp) (hpk ▸ List.mem_cons_self _ _)
      rw [hins]
      rw [ih (pos + size) (res ++ [(name, unpackLE ((data.drop pos).take size))])
        (by simpa [fieldsWellFormed] using hWF.2) (by omega) (List.Nodup.of_cons hnd) ?_]
      · simp
      · intro a ha
        simp only [List.map_append, List.mem_append, List.map_cons, List.map_nil,
          List.mem_singleton, List.mem_cons] at ha
        rcases ha with ha | ha
        · exact fun hmem => hfresh a ha (List.mem_cons_of_mem _ hmem)
        · simp only [List.mem_cons, List.not_mem_nil, or_false] at ha
          subst ha
          exact (List.nodup_cons.mp hnd).1

theorem loop_ok_keys (data : List Nat) (definition : List FieldDef) :
    ∀ (pos : Nat) (res : List (String × Nat)),
      fieldsWellFormed definition = true →
      pos + totalSize definition ≤ data.length →
      ∃ m, unpack_structure_loop data definition pos res = .ok m ∧
        ∀ a, a ∈ m.map Prod.fst ↔ (a ∈ res.map Prod.fst ∨ a ∈ nonReservedNames definition) := by
  induction definition with
  | nil =>
    intro pos res _ _
    exact ⟨res, by simp [unpack_structure_loop], by simp [nonReservedNames]⟩
  | cons f rest ih =>
    obtain ⟨name, data_type, size⟩ := f
    intro pos res hWF hlen
    rw [totalSize_cons'] at hlen
    simp only [fieldsWellFormed, List.all_cons, Bool.and_eq_true, Bool.or_eq_true] at hWF
    have hb : ¬ (pos + size > data.length) := by simp only [not_lt]; omega
    rw [unpack_structure_loop, if_neg hb]
    by_cases hres : reservedName name
    · rw [if_pos hres, nonReservedNames_cons_reserved _ _ hres]
      exact ih (pos + size) res (by simpa [fieldsWellFormed] using hWF.2) (by omega)
    · rw [if_neg hres, nonReservedNames_cons_plain _ _ (by simpa using hres)]
      have hw : fmtWidth data_type = size := by
        rcases hWF.1 with h | h
        · exact absurd h hres
        · exact by simpa using h
      have hsl : ((data.drop pos).take size).length = size :=
        slice_length data pos size (by omega)
      have hsu : structUnpack data_type ((data.drop pos).take size) =
          .ok (unpackLE ((data.drop pos).take size)) := by
        rw [structUnpack, if_pos (by rw [hsl, hw])]
      simp only [hsu]
      obtain ⟨m, hm, hkeys⟩ :=
        ih (pos + size) (dictInsert res name (unpackLE ((data.drop pos).take size)))
          (by simpa [fieldsWellFormed] using hWF.2) (by omega)
      refine ⟨m, hm, fun a => ?_⟩
      rw [hkeys a, keys_dictInsert]
      simp only [List.mem_cons]
      tauto

theorem loop_err (data : List Nat) (definition : List FieldDef) :
    ∀ (pos : Nat) (res : List (String × Nat)),
      fieldsWellFormed definition = true →
      pos ≤ data.length →
      data.length < pos + totalSize definition →
      ∃ k, ∃ hk : k < definition.length,
        pos + totalSize (definition.take k) ≤ data.length ∧
        data.length < pos + totalSize (definition.take k) + (definition.get ⟨k, hk⟩).2.2 ∧
        unpack_structure_loop data definition pos res =
          .error (.outOfBounds
            (pos + totalSize (definition.take k) + (definition.get ⟨k, hk⟩).2.2)
            data.length) := by
  induction definition with
  | nil =>
    intro pos res _ hpos hlt
    rw [totalSize_nil] at hlt
    omega
  | cons f rest ih =>
    obtain ⟨name, data_type, size⟩ := f
    intro pos res hWF hpos hlt
    rw [totalSize_cons'] at hlt
    simp only [fieldsWellFormed, List.all_cons, Bool.and_eq_true, Bool.or_eq_true] at hWF
    by_cases hb : pos + size > data.length
    · refine ⟨0, by simp, ?_, ?_, ?_⟩
      · simpa [totalSize_nil] using hpos
      · simpa [totalSize_nil] using hb
      · rw [unpack_structure_loop, if_pos hb]
        simp [totalSize_nil]
    · have hb' : pos + size ≤ data.length := by omega
      have hstep : unpack_structure_loop data ((name, data_type, size) :: rest) pos res =
          unpack_structure_loop data rest (pos + size)
            (if reservedName name then res
             else dictInsert res name (unpackLE ((data.drop pos).take size))) := by
        rw [unpack_structure_loop, if_neg hb]
        by_cases hres : reservedName name
        · rw [if_pos hres, if_pos hres]
        · have hw : fmtWidth data_type = size := by
            rcases hWF.1 with h | h
            · exact absurd h hres
            · exact by simpa using h
          have hsl : ((data.drop pos).take size).length = size :=
            slice_length data pos size hb'
          have hsu : structUnpack data_type ((data.drop pos).take size) =
              .ok (unpackLE ((data.drop pos).take size)) := by
            rw [structUnpack, if_pos (by rw [hsl, hw])]
          rw [if_neg hres, if_neg hres]
          simp only [hsu]
      obtain ⟨k, hk, h1, h2, he⟩ :=
        ih (pos + size)
          (if reservedName name then res
           else dictInsert res name (unpackLE ((data.drop pos).take size)))
          (by simpa [fieldsWellFormed] using hWF.2) hb' (by omega)
      refine ⟨k + 1, by simpa using Nat.succ_lt_succ hk, ?_, ?_, ?_⟩
      · simpa [List.take_succ_cons, totalSize_cons, Nat.add_assoc] using h1
      · simpa [List.take_succ_cons, totalSize_cons, Nat.add_assoc] using h2
      · rw [hstep, he]
        simp [List.take_succ_cons, totalSize_cons, Nat.add_assoc]

theorem loop_append (data extra : List Nat) (definition : List FieldDef) :
    ∀ (pos : Nat) (res : List (String × Nat)),
      pos + totalSize definition ≤ data.length →
      unpack_structure_loop (data ++ extra) definition pos res =
        unpack_structure_loop data definition pos res := by
  induction definition with
  | nil => intro pos res _; simp [unpack_structure_loop]
  | cons f rest ih =>
    obtain ⟨name, data_type, size⟩ := f
    intro pos res hlen
    rw [totalSize_cons'] at hlen
    have hb : ¬ (pos + size > data.length) := by simp only [not_lt]; omega
    have hb2 : ¬ (pos + size > (data ++ extra).length) := by
      simp only [List.length_append, not_lt]
      omega
    have hslice : (((data ++ extra).drop pos).take size) = ((data.drop pos).take size) := by
      rw [List.take_drop, List.take_drop, List.take_append_eq_append_take,
        Nat.sub_eq_zero_of_le (by omega : pos + size ≤ data.length)]
      simp
    rw [unpack_structure_loop, unpack_structure_loop, if_neg hb, if_neg hb2, hslice]
    by_cases hres : reservedName name
    · rw [if_pos hres, if_pos hres]
      exact ih (pos + size) res (by omega)
    · rw [if_neg hres, if_neg hres]
      cases structUnpack data_type ((data.drop pos).take size) with
      | error e => rfl
      | ok v => exact ih (pos + size) (dictInsert res name v) (by omega)

theorem get_mem_nonReservedNames (definition : List FieldDef) (k : Nat)
    (hk : k < definition.length) (h : reservedName (definition.get ⟨k, hk⟩).1 = false) :
    (definition.get ⟨k, hk⟩).1 ∈ nonReservedNames definition := by
  simp only [nonReservedNames, List.mem_map]
  refine ⟨definition.get ⟨k, hk⟩, List.mem_filter.mpr ⟨definition.get_mem _ _, ?_⟩, rfl⟩
  rw [List.get_eq_getElem] at h
  simp [h]

theorem buildMap_lookup (data : List Nat) (definition : List FieldDef) :
    ∀ (pos k : Nat) (hk : k < definition.length),
      (nonReservedNames definition).Nodup →
      reservedName (definition.get ⟨k, hk⟩).1 = false →
      dictGet (buildMap data definition pos) (definition.get ⟨k, hk⟩).1 =
        some (unpackLE ((data.drop (pos + totalSize (definition.take k))).take
          (definition.get ⟨k, hk⟩).2.2)) := by
  induction definition with
  | nil => intro pos k hk; exact absurd hk (by simp)
  | cons f rest ih =>
    obtain ⟨name, data_type, size⟩ := f
    intro pos k hk hnd hres
    cases k with
    | zero =>
      simp only [List.get] at hres ⊢
      rw [buildMap, if_neg (by simp [hres])]
      simp [dictGet, List.find?, totalSize_nil]
    | succ k =>
      have hk' : k < rest.length := by simpa using hk
      simp only [List.get] at hres ⊢
      by_cases hr : reservedName name
      · rw [buildMap, if_pos hr]
        rw [nonReservedNames_cons_reserved _ _ hr] at hnd
        have := ih (pos + size) k hk' hnd hres
        simpa [List.take_succ_cons, totalSize_cons, Nat.add_assoc] using this
      · rw [buildMap, if_neg hr]
        rw [nonReservedNames_cons_plain _ _ (by simpa using hr)] at hnd
        have hne : name ≠ (rest.get ⟨k, hk'⟩).1 := by
          intro hcontra
          exact (List.nodup_cons.mp hnd).1
            (hcontra ▸ get_mem_nonReservedNames rest k hk' hres)
        rw [dictGet, List.find?]
        rw [show (((name, unpackLE ((data.drop pos).take size)) : String × Nat).1 ==
          (rest.get ⟨k, hk'⟩).1) = false from beq_eq_false_iff_ne.mpr hne]
        have := ih (pos + size) k hk' (List.Nodup.of_cons hnd) hres
        rw [dictGet] at this
        simpa [List.take_succ_cons, totalSize_cons, Nat.add_assoc] using this

theorem packLE_length (w : Nat) : ∀ v, (packLE w v).length = w := by
  induction w with
  | zero => intro v; rfl
  | succ w ih => intro v; simp [packLE, ih]

theorem unpackLE_packLE (w : Nat) : ∀ v, v < 2 ^ (8 * w) → unpackLE (packLE w v) = v := by
  induction w with
  | zero =>
    intro v hv
    simp only [Nat.mul_zero, pow_zero, Nat.lt_one_iff] at hv
    simp [packLE, unpackLE, hv]
  | succ w ih =>
    intro v hv
    have hpow : 2 ^ (8 * (w + 1)) = 2 ^ (8 * w) * 256 := by
      rw [Nat.mul_succ, pow_add]
      norm_num
    rw [hpow] at hv
    rw [packLE, unpackLE, ih (v / 256) (by omega)]
    omega

theorem testBit_shiftLeft_add (a : Nat) :
    ∀ (k b i : Nat), b < 2 ^ k →
      (a <<< k + b).testBit i = if i < k then b.testBit i else a.testBit (i - k) := by
  intro k
  induction k with
  | zero =>
    intro b i hb
    have hb0 : b = 0 := by omega
    subst hb0
    simp [Nat.shiftLeft_zero]
  | succ k ih =>
    intro b i hb
    have h2 : a <<< (k + 1) + b = b + 2 * (a * 2 ^ k) := by
      rw [Nat.shiftLeft_eq, pow_succ]
      ring
    have hdiv : (a <<< (k + 1) + b) / 2 = a <<< k + b / 2 := by
      rw [h2, Nat.add_mul_div_left _ _ (by norm_num : (0:Nat) < 2), Nat.shiftLeft_eq]
      omega
    have hmod : (a <<< (k + 1) + b) % 2 = b % 2 := by
      rw [h2, Nat.add_mul_mod_self_left]
    have hb2 : b / 2 < 2 ^ k := by
      have hp : (2:Nat) ^ (k + 1) = 2 ^ k * 2 := pow_succ 2 k
      omega
    cases i with
    | zero =>
      rw [if_pos (by omega)]
      rw [Nat.testBit_zero, Nat.testBit_zero, hmod]
    | succ i =>
      rw [Nat.testBit_succ, hdiv, ih (b / 2) i hb2]
      by_cases hik : i < k
      · rw [if_pos hik, if_pos (by omega), Nat.testBit_succ]
      · rw [if_neg hik, if_neg (by omega)]
        congr 1
        omega

theorem shiftLeft_lor_eq_add (a k b : Nat) (hb : b < 2 ^ k) :
    a <<< k ||| b = a <<< k + b := by
  apply Nat.eq_of_testBit_eq
  intro i
  rw [Nat.testBit_or, Nat.testBit_shiftLeft, testBit_shiftLeft_add a k b i hb]
  by_cases hik : i < k
  · rw [if_pos hik]
    have h1 : decide (i ≥ k) = false := by simp; omega
    rw [h1]
    simp
  · rw [if_neg hik]
    have h1 : decide (i ≥ k) = true := by simp; omega
    have h2 : b.testBit i = false :=
      Nat.testBit_lt_two_pow (lt_of_lt_of_le hb (Nat.pow_le_pow_right (by norm_num) (by omega)))
    rw [h1, h2]
    simp

/-! ### Closed form of the capture loop -/

theorem read_loop_spec (bus device function : Nat) (dev : Nat → Nat) :
    ∀ (offsets : List Nat) (buf : List (List Nat)) (s : PortState),
      (read_pci_config_loop bus device function dev offsets buf s).1 =
        buf ++ offsets.map (fun off =>
          packLE 4 (dev (PCI_CONFIG_ENABLE ||| encode_config_address bus device function off))) ∧
      (read_pci_config_loop bus device function dev offsets buf s).2.trace =
        s.trace ++ offsets.flatMap (fun off =>
          [IOEvent.outlEv (PCI_CONFIG_ENABLE ||| encode_config_address bus device function off)
            PCI_CONFIG_ADDRESS,
           IOEvent.inlEv PCI_CONFIG_DATA]) := by
  intro offsets
  induction offsets with
  | nil => intro buf s; simp [read_pci_config_loop]
  | cons off rest ih =>
    intro buf s
    constructor <;>
      simp [read_pci_config_loop, pci_config_seek, outl, inl, ih, List.append_assoc]

theorem read_pci_config_spec (bus device function : Nat) (dev : Nat → Nat) (s : PortState) :
    (read_pci_config bus device function dev s).1 =
      ((pyRange 0 0xff 0x4).map (fun off =>
        packLE 4 (dev (PCI_CONFIG_ENABLE ||| encode_config_address bus device function off)))).flatten ∧
    (read_pci_config bus device function dev s).2.trace =
      s.trace ++ (pyRange 0 0xff 0x4).flatMap (fun off =>
        [IOEvent.outlEv (PCI_CONFIG_ENABLE ||| encode_config_address bus device function off)
          PCI_CONFIG_ADDRESS,
         IOEvent.inlEv PCI_CONFIG_DATA]) := by
  obtain ⟨h1, h2⟩ := read_loop_spec bus device function dev (pyRange 0 0xff 0x4) [] s
  rw [read_pci_config]
  exact ⟨by rw [h1]; simp, h2⟩

theorem flatten_map_pack_length (dev : Nat → Nat) (f : Nat → Nat) :
    ∀ l : List Nat, ((l.map (fun off => packLE 4 (dev (f off)))).flatten).length = 4 * l.length := by
  intro l
  induction l with
  | nil => simp
  | cons x xs ih => simp [ih, packLE_length]; omega

/-! ### Facts about the concrete layout table -/

theorem PCIMCHConfig_wf : fieldsWellFormed PCIMCHConfig = true := by decide

theorem PCIMCHConfig_nodup : (nonReservedNames PCIMCHConfig).Nodup := by decide

theorem PCIMCHConfig_total : totalSize PCIMCHConfig = 236 := by decide

theorem pcimch_ok (raw : List Nat) (h : 236 ≤ raw.length) :
    unpack_structure PCIMCHConfig raw = .ok (buildMap raw PCIMCHConfig 0) := by
  rw [unpack_structure]
  rw [loop_ok_eq raw PCIMCHConfig 0 [] PCIMCHConfig_wf
    (by rw [PCIMCHConfig_total]; omega) PCIMCHConfig_nodup (by simp)]
  simp

theorem dictGet_pcimch_vendor (raw : List Nat) :
    dictGet (buildMap raw PCIMCHConfig 0) "vendor_id" = some (unpackLE (raw.take 2)) := rfl

theorem dictGet_pcimch_device (raw : List Nat) :
    dictGet (buildMap raw PCIMCHConfig 0) "device_id" =
      some (unpackLE ((raw.drop 2).take 2)) := rfl

theorem dictGet_pcimch_tsegmb (raw : List Nat) :
    dictGet (buildMap raw PCIMCHConfig 0) "tsegmb" =
      some (unpackLE ((raw.drop 184).take 4)) := rfl

theorem dictGet_pcimch_bdsm (raw : List Nat) :
    dictGet (buildMap raw PCIMCHConfig 0) "bdsm" =
      some (unpackLE ((raw.drop 176).take 4)) := rfl

theorem dictGet_pcimch_bgsm (raw : List Nat) :
    dictGet (buildMap raw PCIMCHConfig 0) "bgsm" =
      some (unpackLE ((raw.drop 180).take 4)) := rfl

theorem dictGet_pcimch_tolud (raw : List Nat) :
    dictGet (buildMap raw PCIMCHConfig 0) "tolud" =
      some (unpackLE ((raw.drop 188).take 4)) := rfl

theorem dictGet_pcimch_remap_base (raw : List Nat) :
    dictGet (buildMap raw PCIMCHConfig 0) "remap_base" =
      some (unpackLE ((raw.drop 144).take 8)) := rfl

theorem dictGet_pcimch_remap_limit (raw : List Nat) :
    dictGet (buildMap raw PCIMCHConfig 0) "remap_limit" =
      some (unpackLE ((raw.drop 152).take 8)) := rfl

theorem dictGet_pcimch_touud (raw : List Nat) :
    dictGet (buildMap raw PCIMCHConfig 0) "touud" =
      some (unpackLE ((raw.drop 168).take 8)) := rfl

theorem dictGet_pcimch_tom (raw : List Nat) :
    dictGet (buildMap raw PCIMCHConfig 0) "tom" =
      some (unpackLE ((raw.drop 160).take 8)) := rfl

/-- The eight presentation fields are always present in a decode of the full
table, so the report block is always produced. -/
theorem mch_report_pcimch (raw : List Nat) :
    ∃ r, mch_report_text (buildMap raw PCIMCHConfig 0) = some r := by
  simp only [mch_report_text, dictGet_pcimch_tsegmb, dictGet_pcimch_bdsm,
    dictGet_pcimch_bgsm, dictGet_pcimch_tolud, dictGet_pcimch_remap_base,
    dictGet_pcimch_remap_limit, dictGet_pcimch_touud, dictGet_pcimch_tom]
  exact ⟨_, rfl⟩

theorem take4_decomp (l : List Nat) (a b c d : Nat) (h : l.take 4 = [a, b, c, d]) :
    ∃ t, l = a :: b :: c :: d :: t := by
  match l with
  | [] => simp at h
  | [x] => simp at h
  | [x, y] => simp at h
  | [x, y, z] => simp at h
  | x :: y :: z :: w :: t =>
    refine ⟨t, ?_⟩
    simp only [List.take, List.cons.injEq, and_true] at h
    obtain ⟨rfl, rfl, rfl, rfl⟩ := h
    rfl

/-! ### Claim theorems -/

/-- C1: for every well-formed layout (spec 4.2: each non-reserved field's
decode width equals its declared size) and every buffer, `unpack_structure`
fails with the out-of-bounds error exactly when the buffer holds fewer bytes
than the sum of the field widths; on failure the error carries the requested
extent `cursor + byte_width` of the first overflowing field and the buffer's
actual length and no map is returned; on success trailing bytes are ignored. -/
theorem C1_bounds_enforcement (definition : List FieldDef) (data : List Nat)
    (hWF : fieldsWellFormed definition = true) :
    ((∃ req act, unpack_structure definition data = .error (.outOfBounds req act)) ↔
      data.length < totalSize definition) ∧
    (data.length < totalSize definition →
      ∃ k, ∃ hk : k < definition.length,
        totalSize (definition.take k) ≤ data.length ∧
        data.length < totalSize (definition.take k) + (definition.get ⟨k, hk⟩).2.2 ∧
        unpack_structure definition data =
          .error (.outOfBounds
            (totalSize (definition.take k) + (definition.get ⟨k, hk⟩).2.2) data.length)) ∧
    (totalSize definition ≤ data.length →
      ∃ m, unpack_structure definition data = .ok m ∧
        ∀ extra, unpack_structure definition (data ++ extra) = .ok m) := by
  have hfail : data.length < totalSize definition →
      ∃ k, ∃ hk : k < definition.length,
        totalSize (definition.take k) ≤ data.length ∧
        data.length < totalSize (definition.take k) + (definition.get ⟨k, hk⟩).2.2 ∧
        unpack_structure definition data =
          .error (.outOfBounds
            (totalSize (definition.take k) + (definition.get ⟨k, hk⟩).2.2) data.length) := by
    intro hlt
    obtain ⟨k, hk, h1, h2, he⟩ :=
      loop_err data definition 0 [] hWF (Nat.zero_le _) (by omega)
    exact ⟨k, hk, by simpa using h1, by simpa using h2,
      by rw [unpack_structure]; simpa using he⟩
  have hsucc : totalSize definition ≤ data.length →
      ∃ m, unpack_structure definition data = .ok m ∧
        ∀ extra, unpack_structure definition (data ++ extra) = .ok m := by
    intro hge
    obtain ⟨m, hm, _⟩ := loop_ok_keys data definition 0 [] hWF (by omega)
    refine ⟨m, by rw [unpack_structure]; exact hm, fun extra => ?_⟩
    rw [unpack_structure, loop_append data extra definition 0 [] (by omega)]
    exact hm
  refine ⟨⟨?_, ?_⟩, hfail, hsucc⟩
  · rintro ⟨req, act, herr⟩
    by_contra hge
    push_neg at hge
    obtain ⟨m, hm, _⟩ := hsucc hge
    rw [herr] at hm
    simp at hm
  · intro hlt
    obtain ⟨k, hk, _, _, he⟩ := hfail hlt
    exact ⟨_, _, he⟩

/-- Witness for C1 at a concrete layout and short buffer: the layout needs 3
bytes, the buffer has 1, and the decode fails with the out-of-bounds error. -/
theorem C1_bounds_enforcement_witness :
    ∃ k, ∃ hk : k < ([("x", DataType.B, 1), ("reserved_r", DataType.B, 2)] : List FieldDef).length,
      totalSize (([("x", DataType.B, 1), ("reserved_r", DataType.B, 2)] : List FieldDef).take k) ≤
        ([7] : List Nat).length ∧
      ([7] : List Nat).length <
        totalSize (([("x", DataType.B, 1), ("reserved_r", DataType.B, 2)] : List FieldDef).take k) +
          (([("x", DataType.B, 1), ("reserved_r", DataType.B, 2)] : List FieldDef).get ⟨k, hk⟩).2.2 ∧
      unpack_structure [("x", DataType.B, 1), ("reserved_r", DataType.B, 2)] [7] =
        .error (.outOfBounds
          (totalSize (([("x", DataType.B, 1), ("reserved_r", DataType.B, 2)] : List FieldDef).take k) +
            (([("x", DataType.B, 1), ("reserved_r", DataType.B, 2)] : List FieldDef).get ⟨k, hk⟩).2.2)
          ([7] : List Nat).length) :=
  (C1_bounds_enforcement [("x", DataType.B, 1), ("reserved_r", DataType.B, 2)] [7]
    (by decide)).2.1 (by decide)

/-- C2: for every well-formed layout and sufficiently long buffer the decode
succeeds and the returned map's key set is exactly the non-reserved field
names; moreover a field behind reserved padding of any width is decoded from
the offset shifted by that padding. -/
theorem C2_reserved_exclusion (definition : List FieldDef) (data : List Nat)
    (hWF : fieldsWellFormed definition = true)
    (hlen : totalSize definition ≤ data.length) :
    (∃ m, unpack_structure definition data = .ok m ∧
      ∀ name, name ∈ m.map Prod.fst ↔ name ∈ nonReservedNames definition) ∧
    (∀ (padWidth : Nat) (buf : List Nat), padWidth + 1 ≤ buf.length →
      ∃ m, unpack_structure
          [("reserved_pad", DataType.B, padWidth), ("x", DataType.B, 1)] buf = .ok m ∧
        dictGet m "x" = some (unpackLE ((buf.drop padWidth).take 1))) := by
  constructor
  · obtain ⟨m, hm, hkeys⟩ := loop_ok_keys data definition 0 [] hWF (by omega)
    refine ⟨m, by rw [unpack_structure]; exact hm, fun name => ?_⟩
    rw [hkeys name]
    simp
  · intro padWidth buf hbuf
    have htot : totalSize [("reserved_pad", DataType.B, padWidth), ("x", DataType.B, 1)] =
        padWidth + 1 := by simp [totalSize]
    refine ⟨buildMap buf [("reserved_pad", DataType.B, padWidth), ("x", DataType.B, 1)] 0,
      ?_, ?_⟩
    · rw [unpack_structure,
        loop_ok_eq buf [("reserved_pad", DataType.B, padWidth), ("x", DataType.B, 1)] 0 []
          rfl (by rw [htot]; omega)
          (by rw [show nonReservedNames
                [("reserved_pad", DataType.B, padWidth), ("x", DataType.B, 1)] = ["x"] from rfl]
              simp)
          (by simp)]
      simp
    · have hx : dictGet
          (buildMap buf [("reserved_pad", DataType.B, padWidth), ("x", DataType.B, 1)] 0) "x" =
          some (unpackLE ((buf.drop (0 + padWidth)).take 1)) := rfl
      simpa using hx

/-- Witness for C2 at a concrete layout and buffer. -/
theorem C2_reserved_exclusion_witness :
    (∃ m, unpack_structure [("a", DataType.H, 2), ("reserved_q", DataType.B, 3)]
        [1, 2, 3, 4, 5] = .ok m ∧
      ∀ name, name ∈ m.map Prod.fst ↔
        name ∈ nonReservedNames [("a", DataType.H, 2), ("reserved_q", DataType.B, 3)]) ∧
    (∀ (padWidth : Nat) (buf : List Nat), padWidth + 1 ≤ buf.length →
      ∃ m, unpack_structure
          [("reserved_pad", DataType.B, padWidth), ("x", DataType.B, 1)] buf = .ok m ∧
        dictGet m "x" = some (unpackLE ((buf.drop padWidth).take 1))) :=
  C2_reserved_exclusion [("a", DataType.H, 2), ("reserved_q", DataType.B, 3)]
    [1, 2, 3, 4, 5] (by decide) (by decide)

/-- C3: for every well-formed layout with distinct non-reserved names (spec 3
data-model invariant) and sufficiently long buffer, the decode succeeds and
every non-reserved field `k` is looked up at offset `sum of widths of fields
0..k-1` with the unsigned little-endian value of its slice. -/
theorem C3_offset_determinism (definition : List FieldDef) (data : List Nat)
    (hWF : fieldsWellFormed definition = true)
    (hlen : totalSize definition ≤ data.length)
    (hnd : (nonReservedNames definition).Nodup) :
    ∃ m, unpack_structure definition data = .ok m ∧
      ∀ (k : Nat) (hk : k < definition.length),
        reservedName (definition.get ⟨k, hk⟩).1 = false →
        dictGet m (definition.get ⟨k, hk⟩).1 =
          some (unpackLE ((data.drop (totalSize (definition.take k))).take
            (definition.get ⟨k, hk⟩).2.2)) := by
  refine ⟨buildMap data definition 0, ?_, ?_⟩
  · rw [unpack_structure, loop_ok_eq data definition 0 [] hWF (by omega) hnd (by simp)]
    simp
  · intro k hk hres
    have := buildMap_lookup data definition 0 k hk hnd hres
    simpa using this

/-- Witness for C3 at a scrambled three-field layout. -/
theorem C3_offset_determinism_witness :
    ∃ m, unpack_structure
        [("b", DataType.B, 1), ("reserved_z", DataType.H, 3), ("a", DataType.H, 2)]
        [10, 20, 30, 40, 50, 60] = .ok m ∧
      ∀ (k : Nat) (hk : k <
          ([("b", DataType.B, 1), ("reserved_z", DataType.H, 3), ("a", DataType.H, 2)] :
            List FieldDef).length),
        reservedName (([("b", DataType.B, 1), ("reserved_z", DataType.H, 3),
            ("a", DataType.H, 2)] : List FieldDef).get ⟨k, hk⟩).1 = false →
        dictGet m (([("b", DataType.B, 1), ("reserved_z", DataType.H, 3),
            ("a", DataType.H, 2)] : List FieldDef).get ⟨k, hk⟩).1 =
          some (unpackLE ((([10, 20, 30, 40, 50, 60] : List Nat).drop
            (totalSize (([("b", DataType.B, 1), ("reserved_z", DataType.H, 3),
              ("a", DataType.H, 2)] : List FieldDef).take k))).take
            (([("b", DataType.B, 1), ("reserved_z", DataType.H, 3),
              ("a", DataType.H, 2)] : List FieldDef).get ⟨k, hk⟩).2.2)) :=
  C3_offset_determinism
    [("b", DataType.B, 1), ("reserved_z", DataType.H, 3), ("a", DataType.H, 2)]
    [10, 20, 30, 40, 50, 60] (by decide) (by decide) (by decide)

/-- C4: the shipped table's widths sum to 236 = 0xec, every non-reserved entry
is well formed (format width = declared size), and decoding any buffer of at
least 236 bytes, in particular the 256-byte capture, returns a map without
any error. -/
theorem C4_table_safety (raw : List Nat) (hlen : 236 ≤ raw.length) :
    totalSize PCIMCHConfig = 236 ∧ fieldsWellFormed PCIMCHConfig = true ∧
      ∃ m, unpack_structure PCIMCHConfig raw = .ok m :=
  ⟨PCIMCHConfig_total, PCIMCHConfig_wf, ⟨_, pcimch_ok raw hlen⟩⟩

/-- Witness for C4 on a concrete 256-byte buffer. -/
theorem C4_table_safety_witness :
    totalSize PCIMCHConfig = 236 ∧ fieldsWellFormed PCIMCHConfig = true ∧
      ∃ m, unpack_structure PCIMCHConfig (List.replicate 256 0) = .ok m :=
  C4_table_safety (List.replicate 256 0) (by simp)

/-- C5: `encode_config_address` is a total function computing
`bus << 16 | device << 11 | function << 8 | register`; for in-range arguments
the fields land in bits 23:16, 15:11, 10:8 and (for a register that is a
multiple of 4) 7:2, and the two concrete examples from the spec hold. -/
theorem C5_address_encoding (bus device function register : Nat)
    (hb : bus < 2 ^ 8) (hd : device < 2 ^ 5) (hf : function < 2 ^ 3)
    (hr : register < 2 ^ 8) :
    encode_config_address bus device function register =
        bus <<< 16 ||| device <<< 11 ||| function <<< 8 ||| register ∧
    encode_config_address bus device function register =
        bus * 2 ^ 16 + device * 2 ^ 11 + function * 2 ^ 8 + register ∧
    encode_config_address bus device function register / 2 ^ 16 % 2 ^ 8 = bus ∧
    encode_config_address bus device function register / 2 ^ 11 % 2 ^ 5 = device ∧
    encode_config_address bus device function register / 2 ^ 8 % 2 ^ 3 = function ∧
    encode_config_address bus device function register % 2 ^ 8 = register ∧
    (register % 4 = 0 →
      encode_config_address bus device function register % 4 = 0 ∧
      encode_config_address bus device function register / 4 % 2 ^ 6 = register / 4) ∧
    encode_config_address 0 0 0 0x7c = 0x7c ∧
    encode_config_address 1 2 3 0x10 = (1 <<< 16 ||| 2 <<< 11 ||| 3 <<< 8 ||| 0x10) := by
  have hb' : bus < 256 := by norm_num at hb; exact hb
  have hd' : device < 32 := by norm_num at hd; exact hd
  have hf' : function < 8 := by norm_num at hf; exact hf
  have hr' : register < 256 := by norm_num at hr; exact hr
  have h1 : function <<< 8 ||| register = function * 256 + register := by
    rw [shiftLeft_lor_eq_add function 8 register (by norm_num; exact hr'),
      Nat.shiftLeft_eq]
  have h2 : device <<< 11 ||| (function * 256 + register) =
      device * 2048 + (function * 256 + register) := by
    rw [shiftLeft_lor_eq_add device 11 (function * 256 + register) (by norm_num; omega),
      Nat.shiftLeft_eq]
  have h3 : bus <<< 16 ||| (device * 2048 + (function * 256 + register)) =
      bus * 65536 + (device * 2048 + (function * 256 + register)) := by
    rw [shiftLeft_lor_eq_add bus 16 (device * 2048 + (function * 256 + register))
        (by norm_num; omega),
      Nat.shiftLeft_eq]
  have hadd : encode_config_address bus device function register =
      bus * 65536 + device * 2048 + function * 256 + register := by
    rw [encode_config_address, Nat.lor_assoc, Nat.lor_assoc, h1, h2, h3]
    ring
  refine ⟨rfl, ?_, ?_, ?_, ?_, ?_, ?_,
    by simp [encode_config_address, Nat.zero_shiftLeft, Nat.zero_or], rfl⟩
  · rw [hadd]; norm_num
  · rw [hadd]; norm_num; omega
  · rw [hadd]; norm_num; omega
  · rw [hadd]; norm_num; omega
  · rw [hadd]; norm_num; omega
  · intro hmul
    rw [hadd]; norm_num
    omega

/-- Witness for C5 at the spec's concrete example. -/
theorem C5_address_encoding_witness :
    encode_config_address 1 2 3 0x10 = 1 * 2 ^ 16 + 2 * 2 ^ 11 + 3 * 2 ^ 8 + 0x10 ∧
    encode_config_address 1 2 3 0x10 % 2 ^ 8 = 0x10 :=
  ⟨(C5_address_encoding 1 2 3 0x10 (by decide) (by decide) (by decide) (by decide)).2.1,
   (C5_address_encoding 1 2 3 0x10 (by decide) (by decide) (by decide)
      (by decide)).2.2.2.2.2.1⟩

/-- C6: `read_pci_config` performs one seek/read pair per offset of
`range(0, 0xff, 4)`, which is the 64 ascending multiples of 4 from 0x00 to
0xfc; each seek writes `0x80000000 ||| encode_config_address(...)` to the
address port before the data-port read, and the returned buffer is the
concatenation of the 64 little-endian packed dwords, 256 bytes long. -/
theorem C6_capture_loop (bus device function : Nat) (dev : Nat → Nat) (s : PortState) :
    pyRange 0 0xff 0x4 = (List.range 64).map (fun i => 4 * i) ∧
    (read_pci_config bus device function dev s).1 =
      ((pyRange 0 0xff 0x4).map (fun off =>
        packLE 4 (dev (PCI_CONFIG_ENABLE |||
          encode_config_address bus device function off)))).flatten ∧
    (read_pci_config bus device function dev s).1.length = 256 ∧
    (read_pci_config bus device function dev s).2.trace =
      s.trace ++ (pyRange 0 0xff 0x4).flatMap (fun off =>
        [IOEvent.outlEv (PCI_CONFIG_ENABLE |||
            encode_config_address bus device function off) PCI_CONFIG_ADDRESS,
         IOEvent.inlEv PCI_CONFIG_DATA]) := by
  obtain ⟨h1, h2⟩ := read_pci_config_spec bus device function dev s
  refine ⟨by decide, h1, ?_, h2⟩
  rw [h1, flatten_map_pack_length dev
    (fun off => PCI_CONFIG_ENABLE ||| encode_config_address bus device function off)]
  decide

/-- C8: the `__main__` block only tests the second `ioperm` result (the first
assignment to `error` is overwritten), so when acquiring privilege for the
data port fails while the address port succeeds, the program does not report
or exit: it proceeds to the capture.  This contradicts the claim/spec, which
make failure on either port fatal with no capture. -/
theorem C8_priv_check_bug (strerror : Nat → String) (dev : Nat → Nat) (s : PortState)
    (errData : Nat) (hne : errData ≠ 0) :
    main_flow strerror errData 0 dev s = .captureRun (print_mch_config dev s) ∧
    ∀ message, main_flow strerror errData 0 dev s ≠ .privFailure message := by
  constructor
  · simp [main_flow]
  · intro message h
    simp [main_flow] at h

/-- Witness for C8: data-port `ioperm` fails with errno 1, address-port
`ioperm` succeeds, and the capture still runs. -/
theorem C8_priv_check_bug_witness :
    main_flow (fun _ => "") 1 0 (fun _ => 0) ⟨0, []⟩ =
      .captureRun (print_mch_config (fun _ => 0) ⟨0, []⟩) ∧
    ∀ message, main_flow (fun _ => "") 1 0 (fun _ => 0) ⟨0, []⟩ ≠ .privFailure message :=
  C8_priv_check_bug (fun _ => "") (fun _ => 0) ⟨0, []⟩ 1 (by decide)

/-- C9: for each of the four struct widths 1, 2, 4, 8 and every in-range
value, packing into little-endian bytes and decoding back — as
`unpack_structure` does for a non-reserved field of that width — returns the
original value. -/
theorem C9_le_roundtrip (dt : DataType) (v : Nat) (hv : v < 2 ^ (8 * fmtWidth dt)) :
    [fmtWidth .B, fmtWidth .H, fmtWidth .I, fmtWidth .Q] = [1, 2, 4, 8] ∧
    unpackLE (packLE (fmtWidth dt) v) = v ∧
    unpack_structure [("x", dt, fmtWidth dt)] (packLE (fmtWidth dt) v) =
      .ok [("x", v)] := by
  refine ⟨rfl, unpackLE_packLE _ v hv, ?_⟩
  have hlen : (packLE (fmtWidth dt) v).length = fmtWidth dt := packLE_length _ v
  have htake : (packLE (fmtWidth dt) v).take (fmtWidth dt) = packLE (fmtWidth dt) v :=
    List.take_of_length_le (by rw [hlen])
  rw [unpack_structure, unpack_structure_loop]
  rw [if_neg (by rw [hlen]; omega)]
  rw [if_neg (by decide)]
  rw [List.drop_zero, htake, structUnpack, if_pos (by rw [hlen])]
  simp [unpack_structure_loop, dictInsert, unpackLE_packLE _ v hv]

/-- Witness for C9 at width 8 and the maximal value. -/
theorem C9_le_roundtrip_witness :
    unpackLE (packLE (fmtWidth .Q) 0xffffffffffffffff) = 0xffffffffffffffff ∧
    unpack_structure [("x", DataType.Q, fmtWidth .Q)]
        (packLE (fmtWidth .Q) 0xffffffffffffffff) =
      .ok [("x", 0xffffffffffffffff)] :=
  ⟨(C9_le_roundtrip .Q 0xffffffffffffffff (by norm_num [fmtWidth])).2.1,
   (C9_le_roundtrip .Q 0xffffffffffffffff (by norm_num [fmtWidth])).2.2⟩

/-- C7: on a 256-byte buffer with vendor bytes `86 80` and device bytes
`00 01`, decoding yields `vendor_id = 0x8086` and `device_id = 0x0100`, both
allowlisted, and the output is the report alone (no warning).  On the same
buffer with vendor bytes `FF FF`, decoding still succeeds with
`vendor_id = 0xffff`, every report field is still decodable (the same report
block `r` is produced), and the output is the mismatch warning followed by
the report — the mismatch aborts nothing. -/
theorem C7_identity_scenarios (raw rawFF : List Nat) (hlen : raw.length = 256)
    (h4 : raw.take 4 = [0x86, 0x80, 0x00, 0x01])
    (hFF : rawFF = 0xff :: 0xff :: raw.drop 2) :
    ∃ m mFF r,
      unpack_structure PCIMCHConfig raw = .ok m ∧
      dictGet m "vendor_id" = some 0x8086 ∧
      dictGet m "device_id" = some 0x0100 ∧
      mch_report_text m = some r ∧
      print_config_lines m = some [r] ∧
      unpack_structure PCIMCHConfig rawFF = .ok mFF ∧
      dictGet mFF "vendor_id" = some 0xffff ∧
      dictGet mFF "device_id" = some 0x0100 ∧
      mch_report_text mFF = some r ∧
      print_config_lines mFF = some [identity_warning 0xffff 0x0100, r] := by
  obtain ⟨t, rfl⟩ := take4_decomp raw _ _ _ _ h4
  subst hFF
  rw [show ((0x86 : Nat) :: 0x80 :: 0x00 :: 0x01 :: t).drop 2 = 0x00 :: 0x01 :: t from rfl]
  simp only [List.length_cons] at hlen
  have hlen' : 236 ≤ ((0x86 : Nat) :: 0x80 :: 0x00 :: 0x01 :: t).length := by
    simp only [List.length_cons]
    omega
  have hlenFF : 236 ≤ ((0xff : Nat) :: 0xff :: 0x00 :: 0x01 :: t).length := by
    simp only [List.length_cons]
    omega
  obtain ⟨r, hr⟩ := mch_report_pcimch (0x86 :: 0x80 :: 0x00 :: 0x01 :: t)
  have hsame : mch_report_text (buildMap (0xff :: 0xff :: 0x00 :: 0x01 :: t) PCIMCHConfig 0) =
      mch_report_text (buildMap (0x86 :: 0x80 :: 0x00 :: 0x01 :: t) PCIMCHConfig 0) := by
    simp only [mch_report_text, dictGet_pcimch_tsegmb, dictGet_pcimch_bdsm,
      dictGet_pcimch_bgsm, dictGet_pcimch_tolud, dictGet_pcimch_remap_base,
      dictGet_pcimch_remap_limit, dictGet_pcimch_touud, dictGet_pcimch_tom,
      show ((0xff : Nat) :: 0xff :: 0x00 :: 0x01 :: t).drop 144 = t.drop 140 from rfl,
      show ((0x86 : Nat) :: 0x80 :: 0x00 :: 0x01 :: t).drop 144 = t.drop 140 from rfl,
      show ((0xff : Nat) :: 0xff :: 0x00 :: 0x01 :: t).drop 152 = t.drop 148 from rfl,
      show ((0x86 : Nat) :: 0x80 :: 0x00 :: 0x01 :: t).drop 152 = t.drop 148 from rfl,
      show ((0xff : Nat) :: 0xff :: 0x00 :: 0x01 :: t).drop 160 = t.drop 156 from rfl,
      show ((0x86 : Nat) :: 0x80 :: 0x00 :: 0x01 :: t).drop 160 = t.drop 156 from rfl,
      show ((0xff : Nat) :: 0xff :: 0x00 :: 0x01 :: t).drop 168 = t.drop 164 from rfl,
      show ((0x86 : Nat) :: 0x80 :: 0x00 :: 0x01 :: t).drop 168 = t.drop 164 from rfl,
      show ((0xff : Nat) :: 0xff :: 0x00 :: 0x01 :: t).drop 176 = t.drop 172 from rfl,
      show ((0x86 : Nat) :: 0x80 :: 0x00 :: 0x01 :: t).drop 176 = t.drop 172 from rfl,
      show ((0xff : Nat) :: 0xff :: 0x00 :: 0x01 :: t).drop 180 = t.drop 176 from rfl,
      show ((0x86 : Nat) :: 0x80 :: 0x00 :: 0x01 :: t).drop 180 = t.drop 176 from rfl,
      show ((0xff : Nat) :: 0xff :: 0x00 :: 0x01 :: t).drop 184 = t.drop 180 from rfl,
      show ((0x86 : Nat) :: 0x80 :: 0x00 :: 0x01 :: t).drop 184 = t.drop 180 from rfl,
      show ((0xff : Nat) :: 0xff :: 0x00 :: 0x01 :: t).drop 188 = t.drop 184 from rfl,
      show ((0x86 : Nat) :: 0x80 :: 0x00 :: 0x01 :: t).drop 188 = t.drop 184 from rfl]
  have hvA : dictGet (buildMap (0x86 :: 0x80 :: 0x00 :: 0x01 :: t) PCIMCHConfig 0)
      "vendor_id" = some 0x8086 := by
    rw [dictGet_pcimch_vendor]
    norm_num [unpackLE]
  have hdA : dictGet (buildMap (0x86 :: 0x80 :: 0x00 :: 0x01 :: t) PCIMCHConfig 0)
      "device_id" = some 0x0100 := by
    rw [dictGet_pcimch_device]
    norm_num [unpackLE]
  have hvFF : dictGet (buildMap (0xff :: 0xff :: 0x00 :: 0x01 :: t) PCIMCHConfig 0)
      "vendor_id" = some 0xffff := by
    rw [dictGet_pcimch_vendor]
    norm_num [unpackLE]
  have hdFF : dictGet (buildMap (0xff :: 0xff :: 0x00 :: 0x01 :: t) PCIMCHConfig 0)
      "device_id" = some 0x0100 := by
    rw [dictGet_pcimch_device]
    norm_num [unpackLE]
  have hpA : print_config_lines (buildMap (0x86 :: 0x80 :: 0x00 :: 0x01 :: t) PCIMCHConfig 0) =
      some [r] := by
    simp only [print_config_lines, hvA, hdA, hr]
    rw [if_neg (by decide)]
    simp
  have hpFF : print_config_lines (buildMap (0xff :: 0xff :: 0x00 :: 0x01 :: t) PCIMCHConfig 0) =
      some [identity_warning 0xffff 0x0100, r] := by
    simp only [print_config_lines, hvFF, hdFF, hsame, hr]
    rw [if_pos (by decide)]
    simp
  exact ⟨buildMap (0x86 :: 0x80 :: 0x00 :: 0x01 :: t) PCIMCHConfig 0,
    buildMap (0xff :: 0xff :: 0x00 :: 0x01 :: t) PCIMCHConfig 0, r,
    pcimch_ok _ hlen', hvA, hdA, hr, hpA,
    pcimch_ok _ hlenFF, hvFF, hdFF, hsame.trans hr, hpFF⟩

/-- Witness for C7 on a concrete 256-byte buffer. -/
theorem C7_identity_scenarios_witness :
    ∃ m mFF r,
      unpack_structure PCIMCHConfig
          (0x86 :: 0x80 :: 0x00 :: 0x01 :: List.replicate 252 0) = .ok m ∧
      dictGet m "vendor_id" = some 0x8086 ∧
      dictGet m "device_id" = some 0x0100 ∧
      mch_report_text m = some r ∧
      print_config_lines m = some [r] ∧
      unpack_structure PCIMCHConfig
          (0xff :: 0xff :: (0x86 :: 0x80 :: 0x00 :: 0x01 ::
            List.replicate 252 0 : List Nat).drop 2) = .ok mFF ∧
      dictGet mFF "vendor_id" = some 0xffff ∧
      dictGet mFF "device_id" = some 0x0100 ∧
      mch_report_text mFF = some r ∧
      print_config_lines mFF = some [identity_warning 0xffff 0x0100, r] :=
  C7_identity_scenarios (0x86 :: 0x80 :: 0x00 :: 0x01 :: List.replicate 252 0) _
    (by simp) rfl rfl

/-- C10: the device allowlist contains exactly 0x0100, 0x0104, 104 and 108 —
the literals `0150` and `0154` are octal — so a capture decoding to vendor
0x8086 with device id 0x0150 or 0x0154 is not allowlisted and the
unknown-identity warning is printed before the report. -/
theorem C10_octal_allowlist :
    DEVICE_IDS = [0x0100, 0x0104, 104, 108] ∧
    ∀ (raw : List Nat) (m : List (String × Nat)) (d : Nat),
      236 ≤ raw.length →
      unpack_structure PCIMCHConfig raw = .ok m →
      dictGet m "vendor_id" = some 0x8086 →
      dictGet m "device_id" = some d →
      d = 0x0150 ∨ d = 0x0154 →
      ∃ r, mch_report_text m = some r ∧
        print_config_lines m = some [identity_warning 0x8086 d, r] := by
  refine ⟨rfl, ?_⟩
  intro raw m d hlen hok hv hd hcase
  have hm : m = buildMap raw PCIMCHConfig 0 := by
    rw [pcimch_ok raw hlen] at hok
    simpa using hok.symm
  subst hm
  obtain ⟨r, hr⟩ := mch_report_pcimch raw
  refine ⟨r, hr, ?_⟩
  rcases hcase with rfl | rfl
  · simp only [print_config_lines, hv, hd, hr]
    rw [if_pos (by decide)]
    simp
  · simp only [print_config_lines, hv, hd, hr]
    rw [if_pos (by decide)]
    simp

/-- Witness for C10 on a concrete capture with device bytes `50 01`. -/
theorem C10_octal_allowlist_witness :
    DEVICE_IDS = [0x0100, 0x0104, 104, 108] ∧
    ∃ r, mch_report_text
        (buildMap (0x86 :: 0x80 :: 0x50 :: 0x01 :: List.replicate 252 0) PCIMCHConfig 0) =
          some r ∧
      print_config_lines
        (buildMap (0x86 :: 0x80 :: 0x50 :: 0x01 :: List.replicate 252 0) PCIMCHConfig 0) =
          some [identity_warning 0x8086 0x0150, r] :=
  ⟨C10_octal_allowlist.1,
    C10_octal_allowlist.2 (0x86 :: 0x80 :: 0x50 :: 0x01 :: List.replicate 252 0)
      (buildMap (0x86 :: 0x80 :: 0x50 :: 0x01 :: List.replicate 252 0) PCIMCHConfig 0)
      0x0150 (by simp) (pcimch_ok _ (by simp))
      (by rw [dictGet_pcimch_vendor]; norm_num [unpackLE])
      (by rw [dictGet_pcimch_device]; norm_num [unpackLE])
      (Or.inl rfl)⟩

end MchConfig
